import Mathlib

/-!
# Verification of `main.py` (gitlab-user-domains)

A shallow embedding of the observable behaviour of `src/main.py`, a one-shot
batch utility that enumerates GitLab users, extracts lower-cased email
domains into a set, and writes two flat text files.

Conventions of the embedding:
* A Python value `user.email` that may be `None` or a string is an
  `Option String`; Python truthiness of such a value (`if user.email`) is
  `emailTruthy` (`none` and `some ""` are falsy).
* The regular expression `@([a-zA-Z0-9.-]+)` used with `re.search` is embedded
  by `findHost`: the leftmost position holding `'@'` followed by at least one
  character of the class `[a-zA-Z0-9.-]` starts the match, and the capture is
  the maximal (greedy) run of class characters after that `'@'`.
* The Python `set` of domains is a `Finset String`; `sorted` on it is
  `Finset.sort (· ≤ ·)` (code-point lexicographic order, as in Python).
* File writes are modelled by the content they produce (`List String` of
  lines, or a whole-file `String`).
* Process-level control flow (`sys.exit`, the `except Exception` catch-all in
  `main`, network calls) is modelled by `runScript` over an abstract `World`.
-/

/-- One character of the regex class `[a-zA-Z0-9.-]` of `main.py` line 97.
`Char.isAlpha`/`Char.isDigit` are ASCII-only, matching the class. -/
def isHostChar (c : Char) : Bool :=
  c.isAlpha || c.isDigit || c = '.' || c = '-'

/-- `re.search(r"@([a-zA-Z0-9.-]+)", s)` on the character list of `s`:
the match starts at the leftmost `'@'` that is followed by at least one
class character; the capture group is the greedy run of class characters
following it.  Returns the captured group. -/
def findHost : List Char → Option (List Char)
  | [] => none
  | c :: cs =>
    if c = '@' then
      if (cs.takeWhile isHostChar).isEmpty then findHost cs
      else some (cs.takeWhile isHostChar)
    else findHost cs

/-- A GitLab user record as consumed by `main.py`: only `username` and
`email` are read.  `email` may be absent (`None`) or empty. -/
structure User where
  username : String
  email : Option String
deriving DecidableEq, Repr

/-- Python truthiness of the `email` attribute: `None` and `""` are falsy. -/
def emailTruthy : Option String → Bool
  | none => false
  | some s => !s.isEmpty

/-- `str.lower()` on a captured host.  The capture of `findHost` only holds
characters of the class `[a-zA-Z0-9.-]`, on which Python lower-casing is
exactly per-character ASCII lower-casing. -/
def lowerHost (cs : List Char) : String :=
  String.mk (cs.map Char.toLower)

/-- The value `match.group(1).lower()` contributed to the domain set by one
user, when `user.email and (match := domain_pattern.search(user.email))`
succeeds (`main.py` lines 102-106); `none` otherwise. -/
def domainOf (u : User) : Option String :=
  match u.email with
  | none => none
  | some s =>
    if s.isEmpty then none
    else (findHost s.data).map lowerHost

/-- The domain set built by the set comprehension of `extract_domains`
(`main.py` lines 102-106). -/
def extractDomains (users : List User) : Finset String :=
  (users.filterMap domainOf).toFinset

/-- The line written for one user by `uf.write(f"{user.username} - {user.email}\n")`
(`main.py` line 113), without its terminating newline. -/
def userLine (u : User) : String :=
  u.username ++ " - " ++ u.email.getD ""

/-- The user-writing loop of `extract_domains` (`main.py` lines 111-115):
returns the lines written to `all_users_with_domains.txt` in order, and the
final value of the `skipped_users` counter. -/
def writeUsers : List User → List String × Nat
  | [] => ([], 0)
  | u :: rest =>
    let r := writeUsers rest
    if emailTruthy u.email then (userLine u :: r.1, r.2) else (r.1, r.2 + 1)

/-- Python string comparison `a <= b`: lexicographic by code points.
Equal heads recurse; otherwise the smaller head decides; a prefix is
smaller. -/
def lexLe : List Char → List Char → Bool
  | [], _ => true
  | _ :: _, [] => false
  | a :: as, b :: bs =>
    if a < b then true
    else if b < a then false
    else lexLe as bs

/-- The order used by Python `sorted` on strings, as a proposition. -/
def strLe (a b : String) : Prop := lexLe a.data b.data = true

instance : DecidableRel strLe := fun a b =>
  inferInstanceAs (Decidable (lexLe a.data b.data = true))

/-- The Python set `domains` of `extract_domains`, represented by the
duplicate-free list of its elements in first-insertion order
(`List.dedup` of the extracted values).  Its `toFinset` is
`extractDomains`. -/
def extractedDomainsList (users : List User) : List String :=
  (users.filterMap domainOf).dedup

/-- The content written to `unique_domains.txt` by `save_domains`
(`main.py` line 125): `"\n".join(sorted(domains)) + "\n"`.  The Python set
`domains` is represented by a duplicate-free listing of its elements;
`sorted` is embedded as insertion sort by the code-point lexicographic
order `strLe` (Python's string order); the content is proven to depend
only on the set of elements, not on the listing order. -/
def saveDomainsContent (domains : List String) : String :=
  String.intercalate "\n" (List.insertionSort strLe domains) ++ "\n"

/-- The `while True` pagination loop of `get_users` (`main.py` lines 84-89),
with explicit fuel: starting from page index `page`, request `pages page`
(one network request per call); an empty batch stops the loop, a non-empty
batch is appended and the loop moves to `page + 1`.  Returns the accumulated
users together with the number of requests issued, or `none` when the fuel
runs out before an empty page is seen. -/
def getUsersAux (pages : Nat → List User) : Nat → Nat → Option (List User × Nat)
  | 0, _ => none
  | fuel + 1, page =>
    if (pages page).isEmpty then some ([], 1)
    else
      match getUsersAux pages fuel (page + 1) with
      | none => none
      | some r => some (pages page ++ r.1, r.2 + 1)

/-- Effective configuration of the script: CLI flags (`--gitlab-url`,
`--token`) and environment variables (`GITLAB_URL`, `PRIVATE_TOKEN`), each
possibly absent. -/
structure Config where
  cliUrl : Option String
  cliToken : Option String
  envUrl : Option String
  envToken : Option String
deriving DecidableEq

/-- Python `a or b` on optional strings: the first operand if truthy,
otherwise the second. -/
def pyOr (a b : Option String) : Option String :=
  if emailTruthy a then a else b

/-- `GITLAB_URL = args.gitlab_url or os.getenv("GITLAB_URL")` (line 52). -/
def gitlabUrl (c : Config) : Option String := pyOr c.cliUrl c.envUrl

/-- `PRIVATE_TOKEN = args.token or os.getenv("PRIVATE_TOKEN")` (line 53). -/
def privateToken (c : Config) : Option String := pyOr c.cliToken c.envToken

/-- Outcome of the `gl.auth()` round-trip performed by `connect_gitlab`. -/
inductive AuthOutcome
  | ok
  | rejected
  | connFail
deriving DecidableEq

/-- The external world the script runs against: the authentication outcome,
the paginated user source (`pages n` is the batch served for page index `n`),
and whether each file write succeeds. -/
structure World where
  auth : AuthOutcome
  pages : Nat → List User
  usersWriteOk : Bool
  domainsWriteOk : Bool

/-- How the body of `main`'s `try` block terminates: normal completion, a
`sys.exit(code)` (`SystemExit`), or an uncaught ordinary `Exception`. -/
inductive BodyOutcome
  | success
  | exits : Nat → BodyOutcome
  | raises
deriving DecidableEq

/-- Observable side effects of one run. -/
structure Trace where
  networkCalls : Nat
  usersFileWritten : Bool
  domainsFileWritten : Bool
deriving DecidableEq

/-- The body of `main`'s `try` block (`main.py` lines 137-143):
`connect_gitlab` (one auth request; `sys.exit(2)` on rejection, `sys.exit(3)`
on transport failure), `get_users` (one request per page up to and including
the first empty page), `extract_domains` (opens and writes
`all_users_with_domains.txt`; an I/O failure there is unguarded and raises),
then `save_domains` (writes `unique_domains.txt`; `sys.exit(6)` on
`IOError`).  The hypothesis `h` states some page is empty, which is what
makes the pagination loop terminate. -/
def runBody (w : World) (h : ∃ k, w.pages (k + 1) = []) : BodyOutcome × Trace :=
  match w.auth with
  | .rejected => (.exits 2, ⟨1, false, false⟩)
  | .connFail => (.exits 3, ⟨1, false, false⟩)
  | .ok =>
    let k := Nat.find h
    let users := ((List.range k).map (fun i => w.pages (i + 1))).flatten
    let net := 1 + (k + 1)
    if w.usersWriteOk then
      let _domains := extractDomains users
      if w.domainsWriteOk then (.success, ⟨net, true, true⟩)
      else (.exits 6, ⟨net, true, false⟩)
    else (.raises, ⟨net, true, false⟩)

/-- The exit code of the process given how the `try` body ended
(`main.py` lines 136-146): `except Exception` catches ordinary exceptions and
calls `sys.exit(7)`; a `SystemExit` raised by `sys.exit(code)` inside the body
is *not* an `Exception`, so it propagates and the process exits with `code`;
normal completion exits `0`. -/
def mainExit : BodyOutcome → Nat
  | .success => 0
  | .exits c => c
  | .raises => 7

/-- Result of one whole process run. -/
structure RunResult where
  exitCode : Nat
  networkCalls : Nat
  usersFileWritten : Bool
  domainsFileWritten : Bool
deriving DecidableEq

/-- One whole run of the script: the module-level configuration check
(`main.py` lines 55-57) exits with code 1 before any session construction
when the effective URL or token is falsy; otherwise `main()` runs the body
and the exit code is determined by `mainExit`. -/
def runScript (c : Config) (w : World) (h : ∃ k, w.pages (k + 1) = []) :
    RunResult :=
  if emailTruthy (gitlabUrl c) && emailTruthy (privateToken c) then
    let r := runBody w h
    ⟨mainExit r.1, r.2.networkCalls, r.2.usersFileWritten, r.2.domainsFileWritten⟩
  else ⟨1, 0, false, false⟩

/-! ## Order lemmas for the code-point lexicographic order -/

theorem lexLe_total : ∀ a b : List Char, lexLe a b = true ∨ lexLe b a = true
  | [], _ => Or.inl rfl
  | _ :: _, [] => Or.inr rfl
  | a :: as, b :: bs => by
    rcases lt_trichotomy a b with hab | hab | hab
    · left; simp [lexLe, hab]
    · subst hab
      rcases lexLe_total as bs with h | h
      · left; simp [lexLe, lt_irrefl, h]
      · right; simp [lexLe, lt_irrefl, h]
    · right; simp [lexLe, hab]

theorem lexLe_trans :
    ∀ a b c : List Char, lexLe a b = true → lexLe b c = true → lexLe a c = true
  | [], _, _, _, _ => rfl
  | _ :: _, [], _, hab, _ => by simp [lexLe] at hab
  | _ :: _, _ :: _, [], _, hbc => by simp [lexLe] at hbc
  | a :: as, b :: bs, c :: cs, hab, hbc => by
    rcases lt_trichotomy a b with h1 | h1 | h1
    · rcases lt_trichotomy b c with h2 | h2 | h2
      · simp [lexLe, lt_trans h1 h2]
      · subst h2; simp [lexLe, h1]
      · simp [lexLe, h2, not_lt.mpr (le_of_lt h2)] at hbc
    · subst h1
      rcases lt_trichotomy a c with h2 | h2 | h2
      · simp [lexLe, h2]
      · subst h2
        simp only [lexLe, lt_irrefl, if_false] at hab hbc ⊢
        exact lexLe_trans as bs cs hab hbc
      · simp [lexLe, h2, not_lt.mpr (le_of_lt h2)] at hbc
    · simp [lexLe, h1, not_lt.mpr (le_of_lt h1)] at hab

theorem lexLe_antisymm :
    ∀ a b : List Char, lexLe a b = true → lexLe b a = true → a = b
  | [], [], _, _ => rfl
  | [], _ :: _, _, hba => by simp [lexLe] at hba
  | _ :: _, [], hab, _ => by simp [lexLe] at hab
  | a :: as, b :: bs, hab, hba => by
    rcases lt_trichotomy a b with h1 | h1 | h1
    · simp [lexLe, h1, not_lt.mpr (le_of_lt h1)] at hba
    · subst h1
      simp only [lexLe, lt_irrefl, if_false] at hab hba
      rw [lexLe_antisymm as bs hab hba]
    · simp [lexLe, h1, not_lt.mpr (le_of_lt h1)] at hab

instance : IsTotal String strLe :=
  ⟨fun a b => lexLe_total a.data b.data⟩

instance : IsTrans String strLe :=
  ⟨fun a b c => lexLe_trans a.data b.data c.data⟩

instance : IsAntisymm String strLe :=
  ⟨fun a b hab hba => by
    cases a; cases b
    exact congrArg String.mk (lexLe_antisymm _ _ hab hba)⟩

/-! ## Helper lemmas about the extractor -/

theorem writeUsers_fst (users : List User) :
    (writeUsers users).1 =
      users.filterMap
        (fun u => if emailTruthy u.email then some (userLine u) else none) := by
  induction users with
  | nil => rfl
  | cons u l ih =>
    simp only [writeUsers, List.filterMap_cons]
    cases h : emailTruthy u.email <;> simp [h, ih]

theorem writeUsers_snd (users : List User) :
    (writeUsers users).2 = users.countP (fun u => !emailTruthy u.email) := by
  induction users with
  | nil => rfl
  | cons u l ih =>
    simp only [writeUsers, List.countP_cons]
    cases h : emailTruthy u.email <;> simp [h, ih]

theorem writeUsers_append (l₁ l₂ : List User) :
    writeUsers (l₁ ++ l₂) =
      ((writeUsers l₁).1 ++ (writeUsers l₂).1,
       (writeUsers l₁).2 + (writeUsers l₂).2) := by
  induction l₁ with
  | nil => simp [writeUsers]
  | cons u l ih =>
    simp only [List.cons_append, writeUsers]
    cases h : emailTruthy u.email <;> simp [h, Prod.ext_iff, ih]
    all_goals omega

theorem mem_extractDomains (users : List User) (d : String) :
    d ∈ extractDomains users ↔ ∃ u ∈ users, domainOf u = some d := by
  simp [extractDomains, List.mem_toFinset, List.mem_filterMap]

theorem domainOf_eq_some_iff (u : User) (d : String) :
    domainOf u = some d ↔
      ∃ s, u.email = some s ∧ emailTruthy u.email = true ∧
        ∃ cs, findHost s.data = some cs ∧ d = lowerHost cs := by
  cases h : u.email with
  | none => simp [domainOf, h, emailTruthy]
  | some s =>
    by_cases hs : s.isEmpty
    · simp [domainOf, h, hs, emailTruthy]
    · cases hf : findHost s.data with
      | none => simp [domainOf, h, hs, hf, emailTruthy]
      | some cs => simp [domainOf, h, hs, hf, emailTruthy, eq_comm]

theorem domainOf_eq_none_of_falsy (u : User) (h : emailTruthy u.email = false) :
    domainOf u = none := by
  cases he : u.email with
  | none => simp [domainOf, he]
  | some s =>
    rw [he] at h
    simp only [emailTruthy, Bool.not_eq_false'] at h
    simp [domainOf, he, h]

theorem extractDomains_perm {l l' : List User} (p : l.Perm l') :
    extractDomains l = extractDomains l' := by
  apply Finset.ext
  intro d
  rw [mem_extractDomains, mem_extractDomains]
  constructor
  · rintro ⟨u, hu, hd⟩; exact ⟨u, p.mem_iff.mp hu, hd⟩
  · rintro ⟨u, hu, hd⟩; exact ⟨u, p.mem_iff.mpr hu, hd⟩

theorem extractDomains_cons (u : User) (l : List User) :
    extractDomains (u :: l) =
      (match domainOf u with
       | some d => insert d (extractDomains l)
       | none => extractDomains l) := by
  cases h : domainOf u <;>
    simp [extractDomains, List.filterMap_cons, h, List.toFinset_cons]

/-! ## A single-pass reference for the extractor (refinement target) -/

/-- One step of the single-pass reference: on a user `u`, add the matching
lower-cased host (if any) to the set, and either append the
`"<username> - <email>"` line (email truthy) or bump the skip counter
(email falsy). -/
def singlePassStep (acc : Finset String × List String × Nat) (u : User) :
    Finset String × List String × Nat :=
  let ds := match domainOf u with
    | some d => insert d acc.1
    | none => acc.1
  if emailTruthy u.email then (ds, acc.2.1 ++ [userLine u], acc.2.2)
  else (ds, acc.2.1, acc.2.2 + 1)

/-- Reference formulation from the spec wording: a single traversal of the
user list in sequence order, accumulating the domain set, the per-user file
lines and the skip counter simultaneously.  To be compared with the
implementation's pair of passes (`extractDomains` and `writeUsers`). -/
def extractDomainsSinglePass (users : List User) :
    Finset String × List String × Nat :=
  users.foldl singlePassStep (∅, [], 0)

theorem singlePass_general (l : List User) :
    ∀ acc : Finset String × List String × Nat,
      l.foldl singlePassStep acc =
        (acc.1 ∪ extractDomains l, acc.2.1 ++ (writeUsers l).1,
         acc.2.2 + (writeUsers l).2) := by
  induction l with
  | nil => intro acc; simp [extractDomains, writeUsers]
  | cons u l ih =>
    intro acc
    rw [List.foldl_cons, ih]
    cases h : emailTruthy u.email
    · have hd := domainOf_eq_none_of_falsy u h
      simp [singlePassStep, h, hd, extractDomains_cons, writeUsers, Prod.ext_iff]
      omega
    · cases hd : domainOf u with
      | none =>
        simp [singlePassStep, h, hd, extractDomains_cons, writeUsers, Prod.ext_iff]
      | some d =>
        simp [singlePassStep, h, hd, extractDomains_cons, writeUsers,
          Prod.ext_iff, Finset.insert_union, Finset.union_insert]

/-! ## Closed form of the pagination loop -/

theorem getUsersAux_succ (pages : Nat → List User) (fuel page : Nat) :
    getUsersAux pages (fuel + 1) page =
      if (pages page).isEmpty then some ([], 1)
      else
        match getUsersAux pages fuel (page + 1) with
        | none => none
        | some r => some (pages page ++ r.1, r.2 + 1) := rfl

theorem getUsersAux_closed (pages : Nat → List User) :
    ∀ m start : Nat, (∀ i, i < m → pages (start + i) ≠ []) →
      pages (start + m) = [] →
      getUsersAux pages (m + 1) start =
        some (((List.range m).map (fun i => pages (start + i))).flatten, m + 1) := by
  intro m
  induction m with
  | zero =>
    intro start _ hempty
    rw [Nat.add_zero] at hempty
    simp [getUsersAux, hempty]
  | succ m ih =>
    intro start hne hempty
    have h0 : pages start ≠ [] := by
      have := hne 0 (Nat.succ_pos m)
      simpa using this
    have hrec := ih (start + 1)
      (fun i hi => by
        have := hne (i + 1) (by omega)
        have harg : start + (i + 1) = start + 1 + i := by omega
        rwa [harg] at this)
      (by
        have harg : start + (m + 1) = start + 1 + m := by omega
        rwa [harg] at hempty)
    have hmap : List.map (fun i => pages (start + 1 + i)) (List.range m)
        = List.map ((fun i => pages (start + i)) ∘ Nat.succ) (List.range m) := by
      apply List.map_congr_left
      intro i _
      simp only [Function.comp]
      congr 1
      omega
    rw [getUsersAux_succ, if_neg (by simpa using h0), hrec]
    simp [List.range_succ_eq_map, List.map_cons, List.map_map,
      List.flatten_cons, hmap]

/-- A fake paginated source serving batches of sizes 100, 100, 37, 0, ... -/
def pagesEx : Nat → List User := fun n =>
  if n = 1 ∨ n = 2 then List.replicate 100 ⟨"u", some "u@example.com"⟩
  else if n = 3 then List.replicate 37 ⟨"u", some "u@example.com"⟩
  else []

/-- Witness-level proof that `pagesEx` has an empty page. -/
def pagesExEmpty : ∃ k, pagesEx (k + 1) = [] := ⟨3, by decide⟩

example : extractDomains [⟨"a", some "a@Example.com"⟩, ⟨"b", some "b@EXAMPLE.COM"⟩, ⟨"c", some "c@other.org"⟩] = {"example.com", "other.org"} := by decide

example : saveDomainsContent (extractedDomainsList [⟨"a", some "a@Example.com"⟩, ⟨"b", some "b@EXAMPLE.COM"⟩, ⟨"c", some "c@other.org"⟩]) = "example.com\nother.org\n" := by decide

/-! ## Concrete data used by the witnesses -/

/-- A user with a truthy email with upper-case host letters. -/
def uA : User := ⟨"alice", some "alice@Example.COM"⟩

/-- A user with an absent email. -/
def uB : User := ⟨"bob", none⟩

/-- A user whose email is non-empty but does not match the pattern. -/
def malUser : User := ⟨"mallory", some "not-an-email"⟩

/-- A two-user list with one truthy and one missing email. -/
def usersC3 : List User := [⟨"alice", some "alice@corp.com"⟩, uB]

/-- A fully configured run (CLI flags set, environment unset). -/
def cOK : Config := ⟨some "https://gitlab.example.com", some "secret-token", none, none⟩

/-- A world whose server rejects the credential. -/
def wRej : World := ⟨.rejected, fun _ => [], true, true⟩

/-- Every page of `wRej` is empty. -/
def hTriv : ∃ k, wRej.pages (k + 1) = [] := ⟨0, rfl⟩

/-- A world where authentication succeeds, the per-user file write succeeds,
and the domains file write fails. -/
def wWriteFail : World := ⟨.ok, fun _ => [], true, false⟩

/-- Every page of `wWriteFail` is empty. -/
def hWriteTriv : ∃ k, wWriteFail.pages (k + 1) = [] := ⟨0, rfl⟩

/-! ## The claims -/

/-- C1: for every list of users, the domain set returned by
`extract_domains` holds exactly the lower-cased hosts captured by the
pattern `@([a-zA-Z0-9.-]+)` from the users whose email is non-empty (truthy)
and matches the pattern, and the set is invariant under permutation of the
input list. -/
theorem extractDomains_pattern_spec (users : List User) :
    (∀ d : String, d ∈ extractDomains users ↔
        ∃ u ∈ users, ∃ s, u.email = some s ∧ emailTruthy u.email = true ∧
          ∃ cs, findHost s.data = some cs ∧ d = lowerHost cs)
    ∧ (∀ users' : List User, users.Perm users' →
        extractDomains users = extractDomains users') := by
  constructor
  · intro d
    rw [mem_extractDomains]
    constructor
    · rintro ⟨u, hu, hd⟩
      rcases (domainOf_eq_some_iff u d).mp hd with ⟨s, hs, ht, cs, hcs, hdd⟩
      exact ⟨u, hu, s, hs, ht, cs, hcs, hdd⟩
    · rintro ⟨u, hu, s, hs, ht, cs, hcs, hdd⟩
      exact ⟨u, hu, (domainOf_eq_some_iff u d).mpr ⟨s, hs, ht, cs, hcs, hdd⟩⟩
  · intro users' p
    exact extractDomains_perm p

/-- Witness for C1 at a concrete input: swapping two users leaves the
extracted domain set unchanged. -/
theorem extractDomains_pattern_spec_witness :
    extractDomains [uA, uB] = extractDomains [uB, uA] :=
  (extractDomains_pattern_spec [uA, uB]).2 [uB, uA] (by decide)

/-- C2: the per-user file holds exactly one `"<username> - <email>"` line
for each user whose email is truthy, in the original sequence order, and no
line for a user whose email is falsy: the written lines are the in-order
`filterMap` of the user list. -/
theorem writeUsers_lines_spec (users : List User) :
    (writeUsers users).1 =
      users.filterMap
        (fun u => if emailTruthy u.email then some (userLine u) else none) :=
  writeUsers_fst users

/-- C3: the skip counter equals the number of users with a falsy email only;
appending a user whose email is non-empty but does not match the pattern
leaves the skip counter and the domain set unchanged while its line does
appear in the per-user file. -/
theorem skipCounter_counts_only_falsy_emails (users : List User) :
    (writeUsers users).2 = users.countP (fun u => !emailTruthy u.email)
    ∧ ∀ u s, u.email = some s → emailTruthy u.email = true →
        findHost s.data = none →
        ((writeUsers (users ++ [u])).2 = (writeUsers users).2
         ∧ extractDomains (users ++ [u]) = extractDomains users
         ∧ userLine u ∈ (writeUsers (users ++ [u])).1) := by
  refine ⟨writeUsers_snd users, ?_⟩
  intro u s hs ht hf
  have hse : s.isEmpty = false := by
    rw [hs] at ht
    simpa [emailTruthy] using ht
  have hdnone : domainOf u = none := by
    simp [domainOf, hs, hse, hf]
  refine ⟨?_, ?_, ?_⟩
  · rw [writeUsers_append]
    simp [writeUsers, ht]
  · simp [extractDomains, List.filterMap_append, List.filterMap_cons, hdnone]
  · rw [writeUsers_append]
    simp [writeUsers, ht]

/-- Witness for C3 at concrete inputs: two users with one missing email give
skip count 1, and appending the malformed `"not-an-email"` user changes
neither the counter nor the domain set while its line is written. -/
theorem skipCounter_witness :
    (writeUsers usersC3).2 = usersC3.countP (fun u => !emailTruthy u.email)
    ∧ (writeUsers (usersC3 ++ [malUser])).2 = (writeUsers usersC3).2
    ∧ extractDomains (usersC3 ++ [malUser]) = extractDomains usersC3
    ∧ userLine malUser ∈ (writeUsers (usersC3 ++ [malUser])).1 := by
  have h := skipCounter_counts_only_falsy_emails usersC3
  have h2 := h.2 malUser "not-an-email" rfl (by decide) (by decide)
  exact ⟨h.1, h2.1, h2.2.1, h2.2.2⟩

/-- C4: the domains file content is the new-line join of a lexicographically
ascending sorted, duplicate-free rendition of the domain set with a trailing
newline; the content depends only on the set of domains, not on the order
they are listed; and the three example emails produce content exactly
`"example.com\nother.org\n"`. -/
theorem saveDomains_sorted_nodup_content :
    (∀ domains : List String,
        List.Sorted strLe (List.insertionSort strLe domains)
        ∧ (List.insertionSort strLe domains).Perm domains
        ∧ (domains.Nodup → (List.insertionSort strLe domains).Nodup)
        ∧ saveDomainsContent domains =
            String.intercalate "\n" (List.insertionSort strLe domains) ++ "\n")
    ∧ (∀ d d' : List String, d.Perm d' →
        saveDomainsContent d = saveDomainsContent d')
    ∧ saveDomainsContent (extractedDomainsList
        [⟨"a", some "a@Example.com"⟩, ⟨"b", some "b@EXAMPLE.COM"⟩,
         ⟨"c", some "c@other.org"⟩]) = "example.com\nother.org\n" := by
  refine ⟨?_, ?_, by decide⟩
  · intro domains
    refine ⟨List.sorted_insertionSort strLe domains,
      List.perm_insertionSort strLe domains, ?_, rfl⟩
    intro hnd
    exact ((List.perm_insertionSort strLe domains).nodup_iff).mpr hnd
  · intro d d' p
    have hsort : List.insertionSort strLe d = List.insertionSort strLe d' :=
      List.eq_of_perm_of_sorted
        ((List.perm_insertionSort strLe d).trans
          (p.trans (List.perm_insertionSort strLe d').symm))
        (List.sorted_insertionSort strLe d)
        (List.sorted_insertionSort strLe d')
    rw [saveDomainsContent, saveDomainsContent, hsort]

/-- Witness for C4 at a concrete input: two listings of the same two-element
domain set give the same file content. -/
theorem saveDomains_sorted_nodup_content_witness :
    saveDomainsContent ["other.org", "example.com"] =
      saveDomainsContent ["example.com", "other.org"] :=
  saveDomains_sorted_nodup_content.2.1
    ["other.org", "example.com"] ["example.com", "other.org"] (by decide)

set_option maxRecDepth 4000 in
/-- C5: for every paginated source with some empty page, the pagination
loop terminates with fuel one past the first empty page index, issuing one
request per page from page 1 up to and including the first empty page and
returning the concatenation of the pages before it; for page sizes
`[100, 100, 37, 0]` it issues exactly 4 requests and returns 237 records. -/
theorem getUsers_pagination_terminates :
    (∀ (pages : Nat → List User) (h : ∃ k, pages (k + 1) = []),
        getUsersAux pages (Nat.find h + 1) 1 =
          some (((List.range (Nat.find h)).map (fun i => pages (i + 1))).flatten,
            Nat.find h + 1))
    ∧ (getUsersAux pagesEx 5 1).map (fun r => (r.1.length, r.2)) =
        some (237, 4) := by
  constructor
  · intro pages h
    have hne : ∀ i, i < Nat.find h → pages (1 + i) ≠ [] := by
      intro i hi
      have hmin := Nat.find_min h hi
      rwa [Nat.add_comm] at hmin
    have hempty : pages (1 + Nat.find h) = [] := by
      have hsp := Nat.find_spec h
      rwa [Nat.add_comm] at hsp
    have hm : List.map (fun i => pages (1 + i)) (List.range (Nat.find h))
        = List.map (fun i => pages (i + 1)) (List.range (Nat.find h)) :=
      List.map_congr_left (fun i _ => by rw [Nat.add_comm])
    rw [getUsersAux_closed pages (Nat.find h) 1 hne hempty, hm]
  · decide

/-- Witness for C5 at the concrete source `pagesEx`: the loop returns the
concatenation of the pages before the first empty one, using 4 requests. -/
theorem getUsers_pagination_terminates_witness :
    getUsersAux pagesEx (Nat.find pagesExEmpty + 1) 1 =
      some (((List.range (Nat.find pagesExEmpty)).map
        (fun i => pagesEx (i + 1))).flatten, Nat.find pagesExEmpty + 1) :=
  getUsers_pagination_terminates.1 pagesEx pagesExEmpty

/-- C6: with no CLI flags and no environment variables the process exits
with code 1, performs zero network calls, and touches neither output
file. -/
theorem missing_config_exits_one_no_network (w : World)
    (h : ∃ k, w.pages (k + 1) = []) :
    runScript ⟨none, none, none, none⟩ w h = ⟨1, 0, false, false⟩ := rfl

/-- Witness for C6 at a concrete world. -/
theorem missing_config_exits_one_no_network_witness :
    runScript ⟨none, none, none, none⟩ wRej hTriv = ⟨1, 0, false, false⟩ :=
  missing_config_exits_one_no_network wRej hTriv

/-- C7: with a full configuration, a server-rejected credential makes the
process exit with code 2 and neither output file is created or
truncated. -/
theorem auth_rejected_exits_two_no_files (c : Config) (w : World)
    (h : ∃ k, w.pages (k + 1) = [])
    (hcfg : (emailTruthy (gitlabUrl c) && emailTruthy (privateToken c)) = true)
    (hauth : w.auth = .rejected) :
    (runScript c w h).exitCode = 2
    ∧ (runScript c w h).usersFileWritten = false
    ∧ (runScript c w h).domainsFileWritten = false := by
  simp [runScript, hcfg, runBody, hauth, mainExit]

/-- Witness for C7 at a concrete configuration and world. -/
theorem auth_rejected_exits_two_no_files_witness :
    (runScript cOK wRej hTriv).exitCode = 2
    ∧ (runScript cOK wRej hTriv).usersFileWritten = false
    ∧ (runScript cOK wRej hTriv).domainsFileWritten = false :=
  auth_rejected_exits_two_no_files cOK wRej hTriv (by decide) rfl

/-- C9: the specific exit codes survive the top-level catch-all: whenever
the body of `main`'s `try` block terminates via `sys.exit(n)` the process
exits with that `n` (`SystemExit` is not an `Exception`), in particular with
2 on rejected credentials, 3 on connection failure and 6 on a domains-file
write failure, while an ordinary exception is remapped to 7. -/
theorem exit_codes_survive_catch_all (c : Config) (w : World)
    (h : ∃ k, w.pages (k + 1) = [])
    (hcfg : (emailTruthy (gitlabUrl c) && emailTruthy (privateToken c)) = true) :
    (∀ n, (runBody w h).1 = .exits n → (runScript c w h).exitCode = n)
    ∧ (w.auth = .rejected → (runScript c w h).exitCode = 2)
    ∧ (w.auth = .connFail → (runScript c w h).exitCode = 3)
    ∧ (w.auth = .ok → w.usersWriteOk = true → w.domainsWriteOk = false →
        (runScript c w h).exitCode = 6)
    ∧ ((runBody w h).1 = .raises → (runScript c w h).exitCode = 7) := by
  have hrs : (runScript c w h).exitCode = mainExit (runBody w h).1 := by
    simp [runScript, hcfg]
  refine ⟨?_, ?_, ?_, ?_, ?_⟩
  · intro n hn; rw [hrs, hn]; rfl
  · intro ha; rw [hrs]; simp [runBody, ha, mainExit]
  · intro ha; rw [hrs]; simp [runBody, ha, mainExit]
  · intro ha hu hd; rw [hrs]; simp [runBody, ha, hu, hd, mainExit]
  · intro hr; rw [hrs, hr]; rfl

/-- Witness for C9 at a concrete run: a domains-file write failure exits
with code 6, not 7. -/
theorem exit_codes_survive_catch_all_witness :
    (runScript cOK wWriteFail hWriteTriv).exitCode = 6 :=
  (exit_codes_survive_catch_all cOK wWriteFail hWriteTriv (by decide)).2.2.2.1
    rfl rfl rfl

/-- C8: the implementation's two passes over the user list (the set
comprehension and the file-writing loop) are observationally equal to the
single-pass reference that builds the domain set, the file lines and the
skip counter in one traversal in sequence order. -/
theorem extractDomains_single_pass_refinement (users : List User) :
    extractDomainsSinglePass users =
      (extractDomains users, (writeUsers users).1, (writeUsers users).2) := by
  rw [extractDomainsSinglePass, singlePass_general]
  simp

/-- C10: with an empty domain set, `save_domains` still writes the domains
file and its content is exactly one newline character, not the empty
string. -/
theorem saveDomains_empty_set_writes_newline :
    saveDomainsContent [] = "\n" ∧ saveDomainsContent [] ≠ "" := by
  constructor <;> decide

example : writeUsers [⟨"a", some "x@y.z"⟩, ⟨"b", none⟩, ⟨"c", some ""⟩] = (["a - x@y.z"], 2) := by decide

example : findHost "a@@b.com".data = some "b.com".data := by decide
example : findHost "not-an-email".data = none := by decide
